import Mathlib

/-
Verification of the silly-db document store (src/index.ts).

This development shallowly embeds the parts of the source the claims
concern: the JSON document model, the primary/swap file persistence
(SillyDBUtils.writeDB / SillyDBUtils.safeReadDB), the per-identifier
transaction queue implementing the async mutex (SillyDBStatus.wait,
the events.on handler and SillyDBUtils.lockDB), the handle lifecycle
flags of class SillyDB, path computation (root_path / getPath), the
read-only proxy wrapper (makeReadonly) and the JSON round-trip copy
(copyData).

External collaborators (node fs, JSON.stringify / JSON.parse,
Path.join) are modelled at their interface, as the specification
treats generic JSON (de)serialization and the filesystem as out of
scope: a file holds either nothing, bytes that do not parse, or the
serialization of a JSON value; Path.join is modelled as slash-joining
of segments (normalization is irrelevant to every claim below).
-/

/-- JSON values, the document payload type. Numbers are modelled as
integers; non-finite numbers and exponents play no role in any claim. -/
inductive Json where
  | null
  | bool (b : Bool)
  | num (n : Int)
  | str (s : String)
  | arr (elems : List Json)
  | obj (fields : List (String × Json))

/-- JavaScript falsiness of a JSON value, as tested by `if (!__data)` in
the source (`SillyDB.data`, `SillyDB.dataReadonly`, `SillyDB.datacopy`):
null, false, 0 and the empty string are falsy; every array and object
(including empty ones) is truthy. -/
def jsFalsy : Json → Bool
  | Json.null => true
  | Json.bool b => !b
  | Json.num n => n == 0
  | Json.str s => s == ""
  | _ => false

/-- Falsiness of the shared `__data` slot, which is `undefined` (here
`none`) before any document is loaded or materialized. -/
def jsFalsyOpt : Option Json → Bool
  | none => true
  | some j => jsFalsy j

/-- Content of one file on disk, with JSON (de)serialization modelled at
its interface: `stored d` means the file holds the serialization of `d`
(so parsing it yields `d`), `corrupt` means it holds bytes that fail to
parse, `absent` means the file does not exist. -/
inductive FileData where
  | absent
  | corrupt
  | stored (d : Json)

/-- The slice of the filesystem one identifier uses: its directory and
the primary (`data.json`) and swap (`data.swp.json`) files. -/
structure FS where
  dirExists : Bool
  primary : FileData
  swap : FileData

/-- Events emitted by a save, used to state write ordering and how often
the document is serialized. -/
inductive WEv where
  | serialize
  | mkdir
  | writeSwap
  | writePrimary
deriving DecidableEq, BEq

/-- Models the inner `writeToPath` of `SillyDBUtils.writeDB`: serialize
the data and write the file; if the write throws (missing directory, or
`undefined` data which `fs.writeFileSync` rejects), create the directory
recursively and retry once, serializing again. Returns (directory exists
afterwards, content written if any, event trace, success). The shared
document slot is `none` when `__data` is `undefined`; `JSON.stringify`
then returns `undefined` and both write attempts throw. -/
def writeToPath (wev : WEv) (dirExists : Bool) (d : Option Json) :
    Bool × Option FileData × List WEv × Bool :=
  match d, dirExists with
  | some j, true => (true, some (FileData.stored j), [WEv.serialize, wev], true)
  | some j, false =>
      (true, some (FileData.stored j),
        [WEv.serialize, WEv.mkdir, WEv.serialize, wev], true)
  | none, _ => (true, none, [WEv.serialize, WEv.mkdir, WEv.serialize], false)

/-- Models `SillyDBUtils.writeDB`: write the swap file `data.swp.json`
first, then the primary file `data.json`, both from the same in-memory
document; any uncaught error aborts the remaining writes and yields the
status string "failed", otherwise the status is "success". Returns the
new filesystem state, the status string and the event trace. -/
def writeDB (d : Option Json) (fs : FS) : FS × String × List WEv :=
  match writeToPath WEv.writeSwap fs.dirExists d with
  | (de1, w1, evs1, ok1) =>
    if ok1 then
      let fs1 : FS :=
        { dirExists := de1, primary := fs.primary, swap := w1.getD fs.swap }
      match writeToPath WEv.writePrimary fs1.dirExists d with
      | (de2, w2, evs2, ok2) =>
        if ok2 then
          ({ fs1 with dirExists := de2, primary := w2.getD fs1.primary },
            "success", evs1 ++ evs2)
        else ({ fs1 with dirExists := de2 }, "failed", evs1 ++ evs2)
    else ({ fs with dirExists := de1 }, "failed", evs1)

/-- Models `SillyDBUtils.safeReadDB`: parse the primary file; on any
failure (missing or corrupt) parse the swap file; if both fail, return
`undefined` (here `none`) — no error escapes. -/
def safeReadDB (fs : FS) : Option Json :=
  match fs.primary with
  | FileData.stored d => some d
  | _ =>
    match fs.swap with
    | FileData.stored d => some d
    | _ => none

/-- A read of this file content fails to produce a document (the file is
missing or does not parse). -/
def readFails : FileData → Bool
  | FileData.stored _ => false
  | _ => true

/-- C3: Durability round trip — saving a JSON document D (the swap-then-
primary write of `writeDB`) and then performing a fresh load of the same
identifier (`safeReadDB`, as run by the `SillyDBStatus` constructor when
in-memory registry state is discarded) yields exactly D, from any prior
state of the identifier's files and directory. -/
theorem durability_round_trip (D : Json) (fs : FS) :
    safeReadDB (writeDB (some D) fs).1 = some D := by
  cases fs with
  | mk de p s => cases de <;> rfl

/-- C5 (counterexample): the claim says every save serializes the
document exactly once, but `writeDB` evaluates `JSON.stringify` once per
file written — twice on the ordinary path (directory present, document
`null`). -/
theorem writeDB_serializes_twice :
    ((writeDB (some Json.null)
        { dirExists := true, primary := FileData.absent,
          swap := FileData.absent }).2.2).count WEv.serialize = 2 ∧
      (2 : Nat) ≠ 1 := by
  exact ⟨rfl, by decide⟩

/-- C5 (amended): every save writes the swap file before the primary
file and both end up holding the serialization of the same document —
byte-identical contents, since `JSON.stringify` is deterministic — and
the save reports "success"; the document is serialized once per write
attempt (twice when the directory exists, three times when the first
write fails for a missing directory and is retried), not once per save. -/
theorem writeDB_swap_then_primary_same_bytes (j : Json) (fs : FS) :
    (writeDB (some j) fs).1.swap = FileData.stored j ∧
    (writeDB (some j) fs).1.primary = FileData.stored j ∧
    (writeDB (some j) fs).1.swap = (writeDB (some j) fs).1.primary ∧
    (writeDB (some j) fs).2.1 = "success" ∧
    (writeDB (some j) fs).2.2 =
      (if fs.dirExists then
        [WEv.serialize, WEv.writeSwap, WEv.serialize, WEv.writePrimary]
      else
        [WEv.serialize, WEv.mkdir, WEv.serialize, WEv.writeSwap,
          WEv.serialize, WEv.writePrimary]) := by
  cases fs with
  | mk de p s => cases de <;> exact ⟨rfl, rfl, rfl, rfl, rfl⟩

/-- C6: Load fallback chain — `safeReadDB` returns the primary file's
document when the primary parses; when the primary is missing or corrupt
it returns the swap file's document if that parses; when both fail it
reports absence (`none`) rather than raising an error. -/
theorem load_fallback_chain (fs : FS) :
    (∀ d, fs.primary = FileData.stored d → safeReadDB fs = some d) ∧
    (∀ d, readFails fs.primary = true → fs.swap = FileData.stored d →
      safeReadDB fs = some d) ∧
    (readFails fs.primary = true → readFails fs.swap = true →
      safeReadDB fs = none) := by
  obtain ⟨de, p, s⟩ := fs
  cases p <;> cases s <;>
    refine ⟨?_, ?_, ?_⟩ <;> intro _ <;> simp_all [safeReadDB, readFails]

/-- C6 (witness): with a corrupt primary and a swap holding `null`, the
load returns the swap's document. -/
theorem load_fallback_chain_witness :
    safeReadDB
        { dirExists := true, primary := FileData.corrupt, swap := FileData.stored Json.null } =
      some Json.null :=
  (load_fallback_chain _).2.1 Json.null rfl rfl

/-- Models the `data` getter of class `SillyDB` (given the handle's
`__locking` flag, its deep-copied default, and the identifier's shared
`__data` slot): not locked raises; otherwise, when `!__data` holds — JS
falsiness, true for `undefined` but also for the documents null, false,
0 and "" — the default is written into the shared slot and returned;
otherwise the shared document itself is returned. Returns the call's
result and the shared slot afterwards; the filesystem is never touched. -/
def dataGet (locking : Bool) (dft : Json) (shared : Option Json) :
    Except String Json × Option Json :=
  if locking = false then
    (Except.error "You cannot get data before use.", shared)
  else
    match shared with
    | some j =>
        if jsFalsy j then (Except.ok dft, some dft) else (Except.ok j, some j)
    | none => (Except.ok dft, some dft)

/-- Models the `data` setter of class `SillyDB`: not locked raises,
otherwise the shared document is replaced outright. -/
def dataSet (locking : Bool) (v : Json) (shared : Option Json) :
    Except String Unit × Option Json :=
  if locking = false then
    (Except.error "Cannot set data before use.", shared)
  else (Except.ok (), some v)

/-- Models `SillyDB.save`: not locked raises; otherwise the write job
runs `writeDB` on the shared document (the write queue delivers it; the
queue discipline itself is modelled below) and the status string is
returned. -/
def save (locking : Bool) (shared : Option Json) (fs : FS) :
    Except String String × FS :=
  if locking = false then (Except.error "Cannot save before use.", fs)
  else ((writeDB shared fs).2.1 |> Except.ok, (writeDB shared fs).1)

/-- The lifecycle flags of one handle: `locking` is `__locking`, and
`unlockSet` records whether `unlockDB` has ever been assigned a real
resolver by a completed `use()` (line 476); before that it is the
function that throws "use a DB before unlock." (line 336). -/
structure HState where
  locking : Bool
  unlockSet : Bool
deriving DecidableEq

/-- A freshly constructed handle: not locking, `unlockDB` still the
throwing placeholder. -/
def constructedH : HState := { locking := false, unlockSet := false }

/-- The handle after its `use()` call completes: `unlockDB` holds the
resolver of the acquired lock and `__locking` is set. -/
def useGrantedH (_ : HState) : HState := { locking := true, unlockSet := true }

/-- Models `SillyDB.close`: it calls `unlockDB()` — which throws only if
`use()` never completed, and otherwise resolves the (possibly already
resolved) lock promise — and then clears `__locking`. Note it never
resets `unlockDB` to the throwing placeholder. -/
def closeH (h : HState) : Except String HState :=
  if h.unlockSet then Except.ok { locking := false, unlockSet := h.unlockSet }
  else Except.error "use a DB before unlock."

/-- The call returned an error. -/
def isErr {α : Type} : Except String α → Bool
  | Except.error _ => true
  | Except.ok _ => false

/-- C4 (code evaluated at the failing input): a saved document `0` is
durably persisted and a fresh load returns it — it is not absent — yet
the next locked `data` read hands back the deep-copied default `1` and
overwrites the shared document with it, because the getter tests JS
falsiness (`!__data`) instead of absence. The last two conjuncts show
the genuinely-absent case, where returning the default is intended. -/
theorem falsy_saved_document_replaced_by_default :
    safeReadDB (writeDB (some (Json.num 0))
        { dirExists := true, primary := FileData.absent, swap := FileData.absent }).1 =
      some (Json.num 0) ∧
    (dataGet true (Json.num 1) (some (Json.num 0))).1 = Except.ok (Json.num 1) ∧
    (dataGet true (Json.num 1) (some (Json.num 0))).2 = some (Json.num 1) ∧
    (dataGet true (Json.num 1) none).1 = Except.ok (Json.num 1) ∧
    (dataGet true (Json.num 1) none).2 = some (Json.num 1) :=
  ⟨rfl, rfl, rfl, rfl, rfl⟩

/-- C7 (counterexample): the claim says `close()` on a handle that was
opened and then closed raises an error, but the second `close()` call
succeeds silently: `unlockDB` still holds the stale resolver from the
first cycle, and resolving an already-resolved promise is a no-op. -/
theorem close_after_close_no_error :
    closeH (useGrantedH constructedH) = Except.ok { locking := false, unlockSet := true } ∧
    closeH { locking := false, unlockSet := true } =
      Except.ok { locking := false, unlockSet := true } :=
  ⟨rfl, rfl⟩

/-- C7 (amended): for a handle that is not Locked, reading `data`,
assigning `data`, and calling `save()` each raise an error and leave the
shared document and the filesystem unchanged; `close()` raises an error
(also with no state change) only when `use()` has never completed on the
handle — `close()` on a previously opened-and-closed handle is a silent
no-op instead. -/
theorem notlocked_ops_fatal (h : HState) (dft v : Json) (shared : Option Json)
    (fs : FS) (hnl : h.locking = false) :
    isErr (dataGet h.locking dft shared).1 = true ∧
    (dataGet h.locking dft shared).2 = shared ∧
    isErr (dataSet h.locking v shared).1 = true ∧
    (dataSet h.locking v shared).2 = shared ∧
    isErr (save h.locking shared fs).1 = true ∧
    (save h.locking shared fs).2 = fs ∧
    (h.unlockSet = false → isErr (closeH h) = true) := by
  rw [hnl]
  refine ⟨rfl, rfl, rfl, rfl, rfl, rfl, fun hu => ?_⟩
  simp [closeH, hu, isErr]

/-- C7 (witness): a freshly constructed handle, default `null`, empty
shared state: every one of the four operations errors out with no state
change. -/
theorem notlocked_ops_fatal_witness :
    isErr (dataGet constructedH.locking Json.null none).1 = true ∧
    (dataGet constructedH.locking Json.null none).2 = none ∧
    isErr (dataSet constructedH.locking Json.null none).1 = true ∧
    (dataSet constructedH.locking Json.null none).2 = none ∧
    isErr (save constructedH.locking none
      { dirExists := true, primary := FileData.absent, swap := FileData.absent }).1 = true ∧
    (save constructedH.locking none
      { dirExists := true, primary := FileData.absent, swap := FileData.absent }).2 =
      { dirExists := true, primary := FileData.absent, swap := FileData.absent } ∧
    (constructedH.unlockSet = false → isErr (closeH constructedH) = true) :=
  notlocked_ops_fatal constructedH Json.null Json.null none
    { dirExists := true, primary := FileData.absent, swap := FileData.absent } rfl

/-- The process-wide mutable configuration of `SillyDBUtils`: the
private static `__path`, initially "./data". -/
structure UtilsState where
  path : String
deriving DecidableEq

/-- The initial configuration state. -/
def initUtils : UtilsState := { path := "./data" }

/-- Models `SillyDBUtils.root_path`: with a truthy argument it replaces
the stored path (an empty string is falsy in JS and is ignored); it
returns the stored path. -/
def root_path (st : UtilsState) (newPath : Option String) : UtilsState × String :=
  match newPath with
  | some p => if p = "" then (st, st.path) else ({ path := p }, p)
  | none => (st, st.path)

/-- Splits a character list at dots, accumulating the current segment
in reverse; a structural model of `String.split(".")`. -/
def splitDotsAux : List Char → List Char → List String
  | [], acc => [String.mk acc.reverse]
  | c :: rest, acc =>
    if c = '.' then String.mk acc.reverse :: splitDotsAux rest []
    else splitDotsAux rest (c :: acc)

/-- The identifier's UID split at dots, dropping the leading segment,
as in `UID.split(".").slice(1)`. -/
def uidSegs (uid : String) : List String := (splitDotsAux uid.toList []).drop 1

/-- Path.join modelled as slash-joining the root with each segment
(node's normalization does not matter to any claim below). -/
def joinPath (root : String) (segs : List String) : String :=
  segs.foldl (fun a s => a ++ "/" ++ s) root

/-- Models `SillyDBUtils.getPath`: joins the CURRENT root path with the
identifier segments — evaluated anew at every call. -/
def getPath (st : UtilsState) (uid : String) : String :=
  joinPath st.path (uidSegs uid)

/-- The directory `writeDB` writes into: lines 215-216 compute
`this.getPath(db)` at write time. -/
def writeDBDir (st : UtilsState) (uid : String) : String := getPath st uid

/-- The directory `safeReadDB` reads from: lines 233 and 240 compute
`this.getPath(db)` at read time. -/
def readDBDir (st : UtilsState) (uid : String) : String := getPath st uid

/-- C8 (counterexample): the claim says changing the root path after an
identifier's state exists does not change where its saves go, but after
`root_path("other")` the next save of identifier "SillyDB.x" writes
under "other/x", not under the original "./data/x". -/
theorem root_path_change_redirects :
    writeDBDir ((root_path initUtils (some "other")).1) "SillyDB.x" ≠
      writeDBDir initUtils "SillyDB.x" ∧
    writeDBDir ((root_path initUtils (some "other")).1) "SillyDB.x" = "other/x" := by
  exact ⟨by decide, rfl⟩

/-- C8 (amended): `getPath` reads the process-wide root path at every
call, so after the root is changed every subsequent save and load of
every identifier uses the new root (the location depends only on the
current root and the UID); only the load performed when the identifier's
state was created used the root in effect at that time. -/
theorem getPath_uses_current_root (st : UtilsState) (p uid : String) (h : p ≠ "") :
    writeDBDir ((root_path st (some p)).1) uid = joinPath p (uidSegs uid) ∧
    readDBDir ((root_path st (some p)).1) uid = joinPath p (uidSegs uid) := by
  simp [writeDBDir, readDBDir, getPath, root_path, h]

/-- C8 (witness): instantiated at root "other" and identifier
"SillyDB.x". -/
theorem getPath_uses_current_root_witness :
    writeDBDir ((root_path initUtils (some "other")).1) "SillyDB.x" =
      joinPath "other" (uidSegs "SillyDB.x") ∧
    readDBDir ((root_path initUtils (some "other")).1) "SillyDB.x" =
      joinPath "other" (uidSegs "SillyDB.x") :=
  getPath_uses_current_root initUtils "other" "SillyDB.x" (by decide)

/-- Phase of one session (one handle's single open/close cycle) with
respect to its identifier's "unlock" transaction queue:
`idle` — `use()` not yet called; `queued` — the acquire job was pushed
by `wait` but the handler has not started it; `starting` — the handler
shifted the job, set the transaction uuid and ran the job's `todo`,
which called `lockover` — the microtask that resumes `use()` has not run
yet; `locked` — `use()` completed (`unlockDB` assigned, `__locking`
true) and `close()` has not been called: the Locked state of the claims;
`closing` — `close()` resolved the lock promise and cleared `__locking`,
but the handler's `await todo()` resumption has not run yet; `closed` —
the handler resumed and moved on to the next queued job. -/
inductive Phase where
  | idle
  | queued
  | starting
  | locked
  | closing
  | closed
deriving DecidableEq

/-- The scheduler's atomic events: `openCall s` is a synchronous `use()`
call by session `s` (push into the transaction list, and if no
transaction is marked active, the emitted handler starts the head job);
`grantStep s` is the microtask resuming `s`'s suspended `use()`;
`closeCall s` is a synchronous `close()` call; `releaseStep s` is the
microtask resuming the handler after `s`'s lock promise resolved, which
re-emits and starts the next queued job. -/
inductive Cmd where
  | openCall (s : Nat)
  | grantStep (s : Nat)
  | closeCall (s : Nat)
  | releaseStep (s : Nat)

/-- State of one identifier's "unlock" transaction queue together with
the phases of all sessions, plus three instrumentation logs used only to
state the claims: `opened` records sessions in the order their `use()`
was called, `history` in the order their acquire job was started by the
handler, `lockedHist` in the order they became Locked. `list` is
`transactions.unlock.list` (job uuids in FIFO order) and `uuid` is
`transactions.unlock.uuid`, the active-job marker. -/
structure QState where
  list : List Nat
  uuid : Option Nat
  phase : Nat → Phase
  opened : List Nat
  history : List Nat
  lockedHist : List Nat

/-- The queue before any call: no jobs, no active marker. -/
def initQ : QState :=
  { list := [], uuid := none, phase := fun _ => Phase.idle,
    opened := [], history := [], lockedHist := [] }

/-- Updates one session's phase. -/
def setPhase (st : QState) (s : Nat) (p : Phase) : QState :=
  { st with phase := fun t => if t = s then p else st.phase t }

/-- The `events.on` handler body (lines 110-125): clear the active
marker, shift the next job; if there is one, mark it active and run it —
for an acquire job, running it calls `lockover` (phase `starting`). -/
def runHandler (st : QState) : QState :=
  match st.list with
  | [] => { st with uuid := none }
  | h :: t =>
    { setPhase st h Phase.starting with
        list := t, uuid := some h, history := st.history ++ [h] }

/-- `SillyDBStatus.wait` called by `lockDB`: push the job, and when no
transaction is marked active, emit — which runs the handler. The push
does not change the active marker, so the emit test reads `st.uuid`. -/
def enqueue (st : QState) (s : Nat) : QState :=
  { setPhase st s Phase.queued with
      list := st.list ++ [s], opened := st.opened ++ [s] }

/-- One atomic event of the cooperative scheduler. Calls whose guard
fails leave the state unchanged, exactly as in the source: `use()` when
already locked returns at once; `close()` by a session that is not the
current holder either throws (never granted: no state was touched) or
re-resolves an already resolved promise (a no-op); the two microtasks
can only fire when their trigger has happened and they fire once. The
model gives each session a single open/close cycle: calling `use()`
again concurrently before the first call completed, or reusing a handle
after `close()`, is outside the claims. -/
def step (st : QState) (c : Cmd) : QState :=
  match c with
  | Cmd.openCall s =>
    if st.phase s = Phase.idle then
      if st.uuid = none then runHandler (enqueue st s) else enqueue st s
    else st
  | Cmd.grantStep s =>
    if st.phase s = Phase.starting then
      { setPhase st s Phase.locked with lockedHist := st.lockedHist ++ [s] }
    else st
  | Cmd.closeCall s =>
    if st.phase s = Phase.locked then setPhase st s Phase.closing else st
  | Cmd.releaseStep s =>
    if st.phase s = Phase.closing then runHandler (setPhase st s Phase.closed)
    else st

/-- The state after a whole trace of events. -/
def run (tr : List Cmd) : QState := tr.foldl step initQ

/-- A session whose acquire job has been started by the handler and has
not yet been released: it occupies the queue's single active slot. -/
def ActiveP (p : Phase) : Prop :=
  p = Phase.starting ∨ p = Phase.locked ∨ p = Phase.closing

instance (p : Phase) : Decidable (ActiveP p) := by
  unfold ActiveP
  infer_instance

/-- The session, if any, whose job was started but whose `use()` has not
resumed yet: its lock grant is still pending as a microtask. -/
def pendingGrant (st : QState) : List Nat :=
  match st.uuid with
  | some s => if st.phase s = Phase.starting then [s] else []
  | none => []

@[simp] theorem setPhase_list (st : QState) (s : Nat) (p : Phase) :
    (setPhase st s p).list = st.list := rfl

@[simp] theorem setPhase_uuid (st : QState) (s : Nat) (p : Phase) :
    (setPhase st s p).uuid = st.uuid := rfl

@[simp] theorem setPhase_opened (st : QState) (s : Nat) (p : Phase) :
    (setPhase st s p).opened = st.opened := rfl

@[simp] theorem setPhase_history (st : QState) (s : Nat) (p : Phase) :
    (setPhase st s p).history = st.history := rfl

@[simp] theorem setPhase_lockedHist (st : QState) (s : Nat) (p : Phase) :
    (setPhase st s p).lockedHist = st.lockedHist := rfl

theorem setPhase_phase (st : QState) (s t : Nat) (p : Phase) :
    (setPhase st s p).phase t = if t = s then p else st.phase t := rfl

/-- The inductive invariant of the queue machinery: the active marker
points at the unique active session; the marker is clear only when the
list is empty; the list holds exactly the queued sessions, without
duplicates; jobs are started in call order (`opened = history ++ list`);
and sessions become Locked in start order, lagging by at most the one
session whose grant microtask is pending. -/
structure QInv (st : QState) : Prop where
  uuidNone : st.uuid = none → st.list = []
  activeUuid : ∀ s, ActiveP (st.phase s) → st.uuid = some s
  uuidActive : ∀ s, st.uuid = some s → ActiveP (st.phase s)
  queuedList : ∀ s, st.phase s = Phase.queued ↔ s ∈ st.list
  nodupList : st.list.Nodup
  openedEq : st.opened = st.history ++ st.list
  historyEq : st.history = st.lockedHist ++ pendingGrant st

theorem qinv_init : QInv initQ := by
  constructor <;> simp [initQ, pendingGrant, ActiveP]

/-- What holds whenever the handler is entered (the active marker is
about to be rewritten and no job is mid-run): no session is active, the
list holds exactly the queued sessions without duplicates, jobs so far
were started in call order, and every started job's grant has resumed. -/
structure HandlerPre (st : QState) : Prop where
  noActive : ∀ s, ¬ ActiveP (st.phase s)
  queuedList : ∀ s, st.phase s = Phase.queued ↔ s ∈ st.list
  nodupList : st.list.Nodup
  openedEq : st.opened = st.history ++ st.list
  histEq : st.history = st.lockedHist

theorem runHandler_qinv (st : QState) (h : HandlerPre st) :
    QInv (runHandler st) := by
  cases hl : st.list with
  | nil =>
    refine ⟨?_, ?_, ?_, ?_, ?_, ?_, ?_⟩ <;> simp [runHandler, hl, pendingGrant]
    · exact fun s hs => absurd hs (h.noActive s)
    · intro s
      have := h.queuedList s
      rw [hl] at this
      simpa using this
    · simpa [hl] using h.openedEq
    · exact h.histEq
  | cons hd tl =>
    have hd_mem : hd ∈ st.list := by rw [hl]; exact List.mem_cons_self hd tl
    have hd_notin : hd ∉ tl := by
      have := h.nodupList
      rw [hl] at this
      exact (List.nodup_cons.mp this).1
    have tl_nodup : tl.Nodup := by
      have := h.nodupList
      rw [hl] at this
      exact (List.nodup_cons.mp this).2
    refine ⟨?_, ?_, ?_, ?_, ?_, ?_, ?_⟩
    · intro hu
      simp [runHandler, hl] at hu
    · intro s hs
      simp only [runHandler, hl, setPhase] at hs ⊢
      by_cases hsh : s = hd
      · simp [hsh]
      · simp only [hsh, if_neg] at hs
        exact absurd hs (h.noActive s)
    · intro s hs
      simp only [runHandler, hl, setPhase] at hs ⊢
      have hsh : hd = s := by simpa using hs
      subst hsh
      simp [ActiveP]
    · intro s
      simp only [runHandler, hl, setPhase]
      by_cases hsh : s = hd
      · subst hsh
        simp [hd_notin]
      · simp only [hsh, if_neg]
        have := h.queuedList s
        rw [hl] at this
        simp only [List.mem_cons] at this
        constructor
        · intro hq
          rcases this.mp hq with hcase | hcase
          · exact absurd hcase hsh
          · exact hcase
        · intro hm
          exact this.mpr (Or.inr hm)
    · simpa [runHandler, hl] using tl_nodup
    · have := h.openedEq
      rw [hl] at this
      simp only [runHandler, hl, setPhase]
      rw [this]
      simp
    · simp only [runHandler, hl, setPhase, pendingGrant]
      simp [h.histEq]

@[simp] theorem enqueue_uuid (st : QState) (s : Nat) :
    (enqueue st s).uuid = st.uuid := rfl

@[simp] theorem enqueue_list (st : QState) (s : Nat) :
    (enqueue st s).list = st.list ++ [s] := rfl

@[simp] theorem enqueue_opened (st : QState) (s : Nat) :
    (enqueue st s).opened = st.opened ++ [s] := rfl

@[simp] theorem enqueue_history (st : QState) (s : Nat) :
    (enqueue st s).history = st.history := rfl

@[simp] theorem enqueue_lockedHist (st : QState) (s : Nat) :
    (enqueue st s).lockedHist = st.lockedHist := rfl

theorem enqueue_phase (st : QState) (s t : Nat) :
    (enqueue st s).phase t = if t = s then Phase.queued else st.phase t := rfl

theorem notin_list_of_phase_ne (st : QState) (h : QInv st) (s : Nat)
    (hp : st.phase s ≠ Phase.queued) : s ∉ st.list :=
  fun hm => hp ((h.queuedList s).mpr hm)

theorem qinv_open (st : QState) (s : Nat) (h : QInv st) :
    QInv (step st (Cmd.openCall s)) := by
  by_cases hid : st.phase s = Phase.idle
  · have hsl : s ∉ st.list :=
      notin_list_of_phase_ne st h s (by rw [hid]; decide)
    by_cases hu : st.uuid = none
    · simp only [step, hid, hu, if_pos, if_true]
      apply runHandler_qinv
      refine ⟨?_, ?_, ?_, ?_, ?_⟩
      · intro t ha
        rw [enqueue_phase] at ha
        by_cases hts : t = s
        · rw [if_pos hts] at ha
          exact absurd ha (by decide)
        · rw [if_neg hts] at ha
          have := h.activeUuid t ha
          rw [hu] at this
          exact Option.noConfusion this
      · intro t
        rw [enqueue_phase, enqueue_list]
        by_cases hts : t = s
        · subst hts
          simp
        · rw [if_neg hts]
          have := h.queuedList t
          simp only [List.mem_append, List.mem_singleton, hts, or_false]
          exact this
      · simp [List.nodup_append, h.nodupList, hsl]
      · rw [enqueue_opened, enqueue_list, enqueue_history, h.openedEq,
          List.append_assoc]
      · have := h.historyEq
        rw [pendingGrant, hu] at this
        simpa using this
    · simp only [step, hid, hu, if_pos, if_false, if_true]
      obtain ⟨t0, ht0⟩ := Option.ne_none_iff_exists'.mp hu
      have ht0a : ActiveP (st.phase t0) := h.uuidActive t0 ht0
      have ht0s : t0 ≠ s := by
        intro hc
        rw [hc, hid] at ht0a
        exact absurd ht0a (by decide)
      refine ⟨?_, ?_, ?_, ?_, ?_, ?_, ?_⟩
      · intro hc
        rw [enqueue_uuid] at hc
        exact absurd hc hu
      · intro t ha
        rw [enqueue_phase] at ha
        by_cases hts : t = s
        · rw [if_pos hts] at ha
          exact absurd ha (by decide)
        · rw [if_neg hts] at ha
          rw [enqueue_uuid]
          exact h.activeUuid t ha
      · intro t ht
        rw [enqueue_uuid] at ht
        have ha := h.uuidActive t ht
        have hts : t ≠ s := by
          intro hc
          rw [hc, hid] at ha
          exact absurd ha (by decide)
        rw [enqueue_phase, if_neg hts]
        exact ha
      · intro t
        rw [enqueue_phase, enqueue_list]
        by_cases hts : t = s
        · subst hts
          simp
        · rw [if_neg hts]
          simp only [List.mem_append, List.mem_singleton, hts, or_false]
          exact h.queuedList t
      · simp [List.nodup_append, h.nodupList, hsl]
      · rw [enqueue_opened, enqueue_list, enqueue_history, h.openedEq,
          List.append_assoc]
      · rw [enqueue_history, enqueue_lockedHist]
        have hpg : pendingGrant (enqueue st s) = pendingGrant st := by
          simp only [pendingGrant, enqueue_uuid, ht0]
          rw [enqueue_phase, if_neg ht0s]
        rw [hpg]
        exact h.historyEq
  · simpa only [step, hid, if_neg, if_false] using h

theorem pendingGrant_eq_nil (st : QState) (s : Nat) (hu : st.uuid = some s)
    (hp : st.phase s ≠ Phase.starting) : pendingGrant st = [] := by
  simp [pendingGrant, hu, hp]

theorem pendingGrant_eq_single (st : QState) (s : Nat) (hu : st.uuid = some s)
    (hp : st.phase s = Phase.starting) : pendingGrant st = [s] := by
  simp [pendingGrant, hu, hp]

theorem qinv_grant (st : QState) (s : Nat) (h : QInv st) :
    QInv (step st (Cmd.grantStep s)) := by
  by_cases hst : st.phase s = Phase.starting
  · have husome : st.uuid = some s := h.activeUuid s (Or.inl hst)
    simp only [step, hst, if_pos, if_true]
    refine ⟨?_, ?_, ?_, ?_, ?_, ?_, ?_⟩
    · intro hc
      simp only [setPhase] at hc
      rw [husome] at hc
      exact Option.noConfusion hc
    · intro t ha
      simp only [setPhase] at ha ⊢
      by_cases hts : t = s
      · rw [hts]
        exact husome
      · rw [if_neg hts] at ha
        exact h.activeUuid t ha
    · intro t ht
      simp only [setPhase] at ht ⊢
      rw [husome] at ht
      have hts : s = t := by injection ht
      subst hts
      simp [ActiveP]
    · intro t
      simp only [setPhase]
      by_cases hts : t = s
      · subst hts
        have : t ∉ st.list :=
          notin_list_of_phase_ne st h t (by rw [hst]; decide)
        simp [this]
      · rw [if_neg hts]
        exact h.queuedList t
    · exact h.nodupList
    · exact h.openedEq
    · have hpre := h.historyEq
      rw [pendingGrant_eq_single st s husome hst] at hpre
      have hpg : pendingGrant { setPhase st s Phase.locked with
          lockedHist := st.lockedHist ++ [s] } = [] := by
        apply pendingGrant_eq_nil _ s
        · exact husome
        · show (if s = s then Phase.locked else st.phase s) ≠ Phase.starting
          rw [if_pos rfl]
          decide
      rw [hpg]
      simpa using hpre
  · simpa only [step, hst, if_neg, if_false] using h

theorem qinv_close (st : QState) (s : Nat) (h : QInv st) :
    QInv (step st (Cmd.closeCall s)) := by
  by_cases hlk : st.phase s = Phase.locked
  · have husome : st.uuid = some s := h.activeUuid s (Or.inr (Or.inl hlk))
    simp only [step, hlk, if_pos, if_true]
    refine ⟨?_, ?_, ?_, ?_, ?_, ?_, ?_⟩
    · intro hc
      simp only [setPhase] at hc
      rw [husome] at hc
      exact Option.noConfusion hc
    · intro t ha
      simp only [setPhase] at ha ⊢
      by_cases hts : t = s
      · rw [hts]
        exact husome
      · rw [if_neg hts] at ha
        exact h.activeUuid t ha
    · intro t ht
      simp only [setPhase] at ht ⊢
      rw [husome] at ht
      have hts : s = t := by injection ht
      subst hts
      simp [ActiveP]
    · intro t
      simp only [setPhase]
      by_cases hts : t = s
      · subst hts
        have : t ∉ st.list :=
          notin_list_of_phase_ne st h t (by rw [hlk]; decide)
        simp [this]
      · rw [if_neg hts]
        exact h.queuedList t
    · exact h.nodupList
    · exact h.openedEq
    · have hpre := h.historyEq
      rw [pendingGrant_eq_nil st s husome (by rw [hlk]; decide)] at hpre
      have hpg : pendingGrant (setPhase st s Phase.closing) = [] := by
        apply pendingGrant_eq_nil _ s
        · exact husome
        · show (if s = s then Phase.closing else st.phase s) ≠ Phase.starting
          rw [if_pos rfl]
          decide
      rw [hpg]
      simpa using hpre
  · simpa only [step, hlk, if_neg, if_false] using h

theorem qinv_release (st : QState) (s : Nat) (h : QInv st) :
    QInv (step st (Cmd.releaseStep s)) := by
  by_cases hcl : st.phase s = Phase.closing
  · have husome : st.uuid = some s := h.activeUuid s (Or.inr (Or.inr hcl))
    simp only [step, hcl, if_pos, if_true]
    apply runHandler_qinv
    refine ⟨?_, ?_, ?_, ?_, ?_⟩
    · intro t ha
      simp only [setPhase] at ha
      by_cases hts : t = s
      · rw [if_pos hts] at ha
        exact absurd ha (by decide)
      · rw [if_neg hts] at ha
        have := h.activeUuid t ha
        rw [husome] at this
        have : s = t := by injection this
        exact absurd this.symm hts
    · intro t
      simp only [setPhase]
      by_cases hts : t = s
      · subst hts
        have : t ∉ st.list :=
          notin_list_of_phase_ne st h t (by rw [hcl]; decide)
        simp [this]
      · rw [if_neg hts]
        exact h.queuedList t
    · exact h.nodupList
    · exact h.openedEq
    · have hpre := h.historyEq
      rw [pendingGrant_eq_nil st s husome (by rw [hcl]; decide)] at hpre
      simpa using hpre
  · simpa only [step, hcl, if_neg, if_false] using h

theorem qinv_step (st : QState) (c : Cmd) (h : QInv st) : QInv (step st c) := by
  cases c with
  | openCall s => exact qinv_open st s h
  | grantStep s => exact qinv_grant st s h
  | closeCall s => exact qinv_close st s h
  | releaseStep s => exact qinv_release st s h

theorem qinv_run (tr : List Cmd) : QInv (run tr) := by
  suffices hgen : ∀ st, QInv st → QInv (tr.foldl step st) from hgen initQ qinv_init
  induction tr with
  | nil => exact fun st h => h
  | cons c rest ih => exact fun st h => ih (step st c) (qinv_step st c h)

theorem step_preserves_not_locked (st : QState) (h : QInv st) (c : Cmd)
    (s t : Nat) (hst : s ≠ t) (hs : st.phase s = Phase.locked)
    (ht : st.phase t ≠ Phase.locked) : (step st c).phase t ≠ Phase.locked := by
  have huuid : st.uuid = some s := h.activeUuid s (Or.inr (Or.inl hs))
  cases c with
  | openCall u =>
    by_cases hid : st.phase u = Phase.idle
    · have hu : ¬ st.uuid = none := by
        rw [huuid]
        exact fun hc => Option.noConfusion hc
      simp only [step]
      rw [if_pos hid, if_neg hu, enqueue_phase]
      by_cases htu : t = u
      · rw [if_pos htu]
        decide
      · rw [if_neg htu]
        exact ht
    · simp only [step, hid, if_neg, if_false]
      exact ht
  | grantStep u =>
    by_cases hg : st.phase u = Phase.starting
    · exfalso
      have he := h.activeUuid u (Or.inl hg)
      rw [huuid] at he
      have hsu : s = u := Option.some.inj he
      rw [hsu, hg] at hs
      exact absurd hs (by decide)
    · simp only [step, hg, if_neg, if_false]
      exact ht
  | closeCall u =>
    by_cases hcc : st.phase u = Phase.locked
    · simp only [step]
      rw [if_pos hcc, setPhase_phase]
      by_cases htu : t = u
      · rw [if_pos htu]
        decide
      · rw [if_neg htu]
        exact ht
    · simp only [step, hcc, if_neg, if_false]
      exact ht
  | releaseStep u =>
    by_cases hr : st.phase u = Phase.closing
    · exfalso
      have he := h.activeUuid u (Or.inr (Or.inr hr))
      rw [huuid] at he
      have hsu : s = u := Option.some.inj he
      rw [hsu, hr] at hs
      exact absurd hs (by decide)
    · simp only [step, hr, if_neg, if_false]
      exact ht

/-- C1: Mutual exclusion per identifier — in every reachable state of
the transaction-queue machinery, at most one session is Locked (its
`use()` has completed and it has not called `close()`); and while one
session is Locked, no scheduler event can make any other session Locked,
so another session's pending `open()` cannot complete before the holder
calls `close()`. -/
theorem lock_mutual_exclusion (tr : List Cmd) :
    (∀ s t, (run tr).phase s = Phase.locked → (run tr).phase t = Phase.locked →
      s = t) ∧
    (∀ (c : Cmd) (s t : Nat), s ≠ t → (run tr).phase s = Phase.locked →
      (run tr).phase t ≠ Phase.locked →
      (run (tr ++ [c])).phase t ≠ Phase.locked) := by
  have hinv := qinv_run tr
  refine ⟨fun s t hs ht => ?_, fun c s t hst hs ht => ?_⟩
  · have h1 := hinv.activeUuid s (Or.inr (Or.inl hs))
    have h2 := hinv.activeUuid t (Or.inr (Or.inl ht))
    rw [h1] at h2
    exact Option.some.inj h2
  · have hrw : run (tr ++ [c]) = step (run tr) c := by
      simp [run, List.foldl_append]
    rw [hrw]
    exact step_preserves_not_locked (run tr) hinv c s t hst hs ht

/-- C1 (witness): session 1 opened and was granted the lock, session 2
opened and is queued; scheduling session 2's grant does not make it
Locked while session 1 holds the lock. -/
theorem lock_mutual_exclusion_witness :
    (run ([Cmd.openCall 1, Cmd.openCall 2, Cmd.grantStep 1] ++
      [Cmd.grantStep 2])).phase 2 ≠ Phase.locked :=
  (lock_mutual_exclusion [Cmd.openCall 1, Cmd.openCall 2, Cmd.grantStep 1]).2
    (Cmd.grantStep 2) 1 2 (by decide) (by decide) (by decide)

/-- C2: FIFO ordering — after any trace of events, the order in which
sessions became Locked (`lockedHist`) is a prefix of the order in which
they called `open()` (`opened`): sessions become Locked in exactly their
program open order, with no skipping and no reordering. Likewise the
order in which the handler starts jobs (`history`) is a prefix of the
enqueue order, so a later-enqueued job never runs before an
earlier-enqueued one; and at most one job is active at any instant. -/
theorem lock_fifo_order (tr : List Cmd) :
    (run tr).lockedHist <+: (run tr).opened ∧
    (run tr).history <+: (run tr).opened ∧
    (∀ s t, ActiveP ((run tr).phase s) → ActiveP ((run tr).phase t) →
      s = t) := by
  have hinv := qinv_run tr
  have h1 : (run tr).lockedHist <+: (run tr).history :=
    ⟨pendingGrant (run tr), hinv.historyEq.symm⟩
  have h2 : (run tr).history <+: (run tr).opened :=
    ⟨(run tr).list, hinv.openedEq.symm⟩
  refine ⟨h1.trans h2, h2, fun s t hs ht => ?_⟩
  have e1 := hinv.activeUuid s hs
  have e2 := hinv.activeUuid t ht
  rw [e1] at e2
  exact Option.some.inj e2

/-- C2 (witness): three sessions open in program order 1, 2, 3; after
the first two are granted and released and the third is granted, the
Locked order [1, 2, 3] is a prefix of the open order [1, 2, 3], and the
only active session is the unique holder. -/
theorem lock_fifo_order_witness :
    (run [Cmd.openCall 1, Cmd.openCall 2, Cmd.openCall 3, Cmd.grantStep 1,
      Cmd.closeCall 1, Cmd.releaseStep 1, Cmd.grantStep 2, Cmd.closeCall 2,
      Cmd.releaseStep 2, Cmd.grantStep 3]).lockedHist <+:
      (run [Cmd.openCall 1, Cmd.openCall 2, Cmd.openCall 3, Cmd.grantStep 1,
        Cmd.closeCall 1, Cmd.releaseStep 1, Cmd.grantStep 2, Cmd.closeCall 2,
        Cmd.releaseStep 2, Cmd.grantStep 3]).opened ∧
    (3 : Nat) = 3 :=
  ⟨(lock_fifo_order [Cmd.openCall 1, Cmd.openCall 2, Cmd.openCall 3,
      Cmd.grantStep 1, Cmd.closeCall 1, Cmd.releaseStep 1, Cmd.grantStep 2,
      Cmd.closeCall 2, Cmd.releaseStep 2, Cmd.grantStep 3]).1,
    (lock_fifo_order [Cmd.openCall 1, Cmd.openCall 2, Cmd.openCall 3,
      Cmd.grantStep 1, Cmd.closeCall 1, Cmd.releaseStep 1, Cmd.grantStep 2,
      Cmd.closeCall 2, Cmd.releaseStep 2, Cmd.grantStep 3]).2.2 3 3
      (by decide) (by decide)⟩

/-- A JS property key on a navigation path: a string key of an object or
an index of an array. -/
inductive Seg where
  | key (k : String)
  | idx (n : Nat)

/-- Lookup of a field in an object's ordered field list. -/
def lookupField : List (String × Json) → String → Option Json
  | [], _ => none
  | (k, v) :: rest, key => if k = key then some v else lookupField rest key

/-- One step of property access `target[prop]` on a JSON value, as the
proxy's `get` trap performs it before wrapping the result with
`makeReadonly`: object fields by key, array elements by index; any other
value (null, booleans, numbers, strings) has no own JSON properties, so
the access yields `undefined` (`none`). -/
def getSeg : Json → Seg → Option Json
  | Json.obj l, Seg.key k => lookupField l k
  | Json.arr l, Seg.idx n => l.get? n
  | _, _ => none

/-- Navigation along a property path. -/
def getAt : Json → List Seg → Option Json
  | d, [] => some d
  | d, s :: p =>
    match getSeg d s with
    | some x => getAt x p
    | none => none

/-- The value is an object or an array: `makeReadonly` wraps exactly
these (non-null values of typeof "object") in its mutation-blocking
proxy, whose `set` and `deleteProperty` traps return true without
touching the target. -/
def isContainer : Json → Bool
  | Json.obj _ => true
  | Json.arr _ => true
  | _ => false

/-- Outcome of a write attempted through the read-only view: `noop` —
the proxy trap swallowed it, nothing thrown, nothing written;
`typeError` — strict mode raised a TypeError before any trap was
reached (property creation on a primitive, or property access on
`undefined`); `hostDefined` — a strict-mode `delete` on a primitive
receiver, which succeeds for missing or configurable properties and
throws for non-configurable ones — unreachable under the claims'
hypothesis of an existing property path, so given no verdict here. -/
inductive WriteRes where
  | noop
  | typeError
  | hostDefined
deriving DecidableEq

/-- Strict-mode semantics of `view[p0]...[pn][s] = v` where the view is
`makeReadonly(d)`: the gets navigate to the parent, each container en
route re-wrapped in a proxy; when the parent value is a container the
final receiver is a proxy and the `set` trap (source: it only returns
true) performs no write; the assigned key and value are ignored by the
trap. Returns the underlying document afterwards and the outcome. -/
def viewAssign (d : Json) (parent : List Seg) (s : Seg) (v : Json) :
    Json × WriteRes :=
  match getAt d parent with
  | some x =>
    if isContainer x then (d, WriteRes.noop) else (d, WriteRes.typeError)
  | none => (d, WriteRes.typeError)

/-- Strict-mode semantics of `delete view[p0]...[pn][s]`, mirroring
`viewAssign` with the `deleteProperty` trap (source: it only returns
true). -/
def viewDelete (d : Json) (parent : List Seg) (s : Seg) : Json × WriteRes :=
  match getAt d parent with
  | some x =>
    if isContainer x then (d, WriteRes.noop) else (d, WriteRes.hostDefined)
  | none => (d, WriteRes.typeError)

/-- The document that `SillyDB.dataReadonly` wraps with `makeReadonly`:
the shared `__data` when truthy, else the handle's deep-copied default
(the getter tests `!__data`). -/
def dataReadonlyDoc (shared : Option Json) (dft : Json) : Json :=
  match shared with
  | some j => if jsFalsy j then dft else j
  | none => dft

theorem getAt_append_singleton (d : Json) (p : List Seg) (s : Seg) :
    getAt d (p ++ [s]) = (getAt d p).bind (fun x => getSeg x s) := by
  induction p generalizing d with
  | nil => cases h : getSeg d s <;> simp [getAt, h]
  | cons q rest ih => cases h : getSeg d q <;> simp [getAt, h, ih]

theorem isContainer_of_getSeg (x q : Json) (s : Seg)
    (h : getSeg x s = some q) : isContainer x = true := by
  cases x <;> cases s <;> simp_all [getSeg, isContainer]

/-- C9: Read-only view is write-inert — for every document the
`dataReadonly` view wraps and every existing property path of it
(`parent ++ [s]` resolves to a value `q`), assigning through the view
and deleting through the view are silent no-ops: nothing is thrown and
the underlying document is returned unchanged (the traps never write,
so equality is on the nose, hence deep equality). -/
theorem readonly_view_write_inert (sd : Option Json) (dft q v : Json)
    (parent : List Seg) (s : Seg)
    (h : getAt (dataReadonlyDoc sd dft) (parent ++ [s]) = some q) :
    viewAssign (dataReadonlyDoc sd dft) parent s v =
      (dataReadonlyDoc sd dft, WriteRes.noop) ∧
    viewDelete (dataReadonlyDoc sd dft) parent s =
      (dataReadonlyDoc sd dft, WriteRes.noop) := by
  rw [getAt_append_singleton] at h
  cases hx : getAt (dataReadonlyDoc sd dft) parent with
  | none =>
    rw [hx] at h
    simp at h
  | some x =>
    rw [hx] at h
    simp only [Option.bind] at h
    have hc : isContainer x = true := isContainer_of_getSeg x q s h
    simp [viewAssign, viewDelete, hx, hc]

/-- C9 (witness): document `{a: 1}`, path `a`: both the assignment
`view.a = 2` and `delete view.a` are swallowed without any change. -/
theorem readonly_view_write_inert_witness :
    viewAssign (dataReadonlyDoc (some (Json.obj [("a", Json.num 1)])) Json.null)
        [] (Seg.key "a") (Json.num 2) =
      (dataReadonlyDoc (some (Json.obj [("a", Json.num 1)])) Json.null,
        WriteRes.noop) ∧
    viewDelete (dataReadonlyDoc (some (Json.obj [("a", Json.num 1)])) Json.null)
        [] (Seg.key "a") =
      (dataReadonlyDoc (some (Json.obj [("a", Json.num 1)])) Json.null,
        WriteRes.noop) :=
  readonly_view_write_inert (some (Json.obj [("a", Json.num 1)])) Json.null
    (Json.num 1) (Json.num 2) [] (Seg.key "a") rfl

/-- JavaScript values that can appear in a default value passed to the
`SillyDB` constructor. Unlike `Json` this includes `undefined` and
function values, which `JSON.stringify` treats specially. Values are
finite trees, so objects with circular references are not representable
in this model. -/
inductive JsValue where
  | undef
  | func
  | null
  | bool (b : Bool)
  | num (n : Int)
  | str (s : String)
  | arr (elems : List JsValue)
  | obj (fields : List (String × JsValue))

mutual

/-- Models `copyData(x) = JSON.parse(JSON.stringify(x))` on a value in
serializable position: `none` when `JSON.stringify` returns `undefined`
(the value is `undefined` or a function), in which case `JSON.parse`
throws a SyntaxError; otherwise the round-tripped value. -/
def copyVal : JsValue → Option JsValue
  | JsValue.undef => none
  | JsValue.func => none
  | JsValue.null => some JsValue.null
  | JsValue.bool b => some (JsValue.bool b)
  | JsValue.num n => some (JsValue.num n)
  | JsValue.str s => some (JsValue.str s)
  | JsValue.arr l => some (JsValue.arr (copyArr l))
  | JsValue.obj l => some (JsValue.obj (copyObj l))

/-- Array elements under `JSON.stringify`: an element that serializes to
`undefined` becomes `null` — it is not dropped. -/
def copyArr : List JsValue → List JsValue
  | [] => []
  | x :: xs => (copyVal x).getD JsValue.null :: copyArr xs

/-- Object fields under `JSON.stringify`: a field whose value serializes
to `undefined` is dropped. -/
def copyObj : List (String × JsValue) → List (String × JsValue)
  | [] => []
  | (k, x) :: xs =>
    match copyVal x with
    | some v => (k, v) :: copyObj xs
    | none => copyObj xs

end

/-- Models the `SillyDB` constructor's `this.__default = copyData(
defaultValue)` (after registration): it throws when `JSON.parse` is fed
`undefined`, otherwise stores the round-tripped copy. -/
def constructDefault (dv : JsValue) : Except String JsValue :=
  match copyVal dv with
  | some c => Except.ok c
  | none => Except.error "SyntaxError"

/-- JS property lookup in an object's field list. -/
def lookupJs : List (String × JsValue) → String → Option JsValue
  | [], _ => none
  | (k, v) :: rest, key => if k = key then some v else lookupJs rest key

theorem lookupJs_eq_none_of_not_mem (l : List (String × JsValue)) (k : String)
    (h : k ∉ l.map Prod.fst) : lookupJs l k = none := by
  induction l with
  | nil => rfl
  | cons p rest ih =>
    obtain ⟨k0, v0⟩ := p
    simp only [List.map_cons, List.mem_cons] at h
    push_neg at h
    rw [lookupJs, if_neg (fun hc => h.1 hc.symm)]
    exact ih h.2

theorem lookupJs_copyObj_none (l : List (String × JsValue)) (k : String)
    (h : lookupJs l k = none) : lookupJs (copyObj l) k = none := by
  induction l with
  | nil => rfl
  | cons p rest ih =>
    obtain ⟨k0, v0⟩ := p
    rw [lookupJs] at h
    by_cases hk : k0 = k
    · rw [if_pos hk] at h
      exact Option.noConfusion h
    · rw [if_neg hk] at h
      rw [copyObj]
      cases copyVal v0 with
      | some c =>
        simp only []
        rw [lookupJs, if_neg hk]
        exact ih h
      | none =>
        simp only []
        exact ih h

/-- C10 (counterexample): the claim says any property holding
`undefined` (or a function) is silently dropped from the stored copy,
but for an array element `JSON.stringify` writes `null` instead of
dropping: the copy of `[undefined]` is `[null]`, a one-element array,
not the empty array that dropping would produce. -/
theorem copyData_array_element_not_dropped :
    copyVal (JsValue.arr [JsValue.undef]) =
      some (JsValue.arr [JsValue.null]) ∧
    JsValue.arr [JsValue.null] ≠ JsValue.arr [] := by
  refine ⟨?_, ?_⟩
  · simp [copyVal, copyArr]
  · intro hc
    injection hc with hl
    exact List.noConfusion hl

/-- C10 (amended): the constructor's deep copy is a JSON
serialize-then-parse round trip, so a default of `undefined` or a bare
function throws at construction time (`JSON.stringify` yields
`undefined` and `JSON.parse` then throws); for JSON-representable
defaults, object properties holding functions or `undefined` are
silently dropped from the stored copy, while array elements holding them
are replaced by `null` (position and length preserved). Circular
defaults are not representable among these finite values; they likewise
throw, in `JSON.stringify` itself. -/
theorem copyData_round_trip_drops :
    constructDefault JsValue.undef = Except.error "SyntaxError" ∧
    constructDefault JsValue.func = Except.error "SyntaxError" ∧
    (∀ (l : List (String × JsValue)) (k : String),
      (l.map Prod.fst).Nodup →
      (lookupJs l k = some JsValue.undef ∨ lookupJs l k = some JsValue.func) →
      lookupJs (copyObj l) k = none) ∧
    (∀ (l : List JsValue) (i : Nat),
      (l.get? i = some JsValue.undef ∨ l.get? i = some JsValue.func) →
      (copyArr l).get? i = some JsValue.null) := by
  refine ⟨rfl, rfl, ?_, ?_⟩
  · intro l
    induction l with
    | nil =>
      intro k _ hlk
      rcases hlk with h | h <;> exact Option.noConfusion h
    | cons p rest ih =>
      obtain ⟨k0, v0⟩ := p
      intro k hnd hlk
      simp only [List.map_cons, List.nodup_cons] at hnd
      by_cases hk : k0 = k
      · rw [lookupJs, if_pos hk] at hlk
        have hv0 : copyVal v0 = none := by
          rcases hlk with h | h
          · rw [Option.some.inj h]
            rfl
          · rw [Option.some.inj h]
            rfl
        rw [copyObj, hv0]
        apply lookupJs_copyObj_none
        apply lookupJs_eq_none_of_not_mem
        rw [← hk]
        exact hnd.1
      · rw [lookupJs, if_neg hk] at hlk
        rw [copyObj]
        cases hcv : copyVal v0 with
        | some c =>
          simp only []
          rw [lookupJs, if_neg hk]
          exact ih k hnd.2 hlk
        | none =>
          simp only []
          exact ih k hnd.2 hlk
  · intro l
    induction l with
    | nil =>
      intro i hi
      rcases hi with h | h <;> simp at h
    | cons x xs ih =>
      intro i hi
      cases i with
      | zero =>
        have hx : copyVal x = none := by
          rcases hi with h | h
          · simp only [List.get?] at h
            rw [Option.some.inj h]
            rfl
          · simp only [List.get?] at h
            rw [Option.some.inj h]
            rfl
        rw [copyArr]
        simp [hx]
      | succ n =>
        rw [copyArr]
        simp only [List.get?]
        apply ih
        simpa using hi

/-- C10 (witness): a default of `undefined` errors at construction; the
object field `{a: undefined}` is dropped from the copy; the array
element `[function]` is copied as `null`. -/
theorem copyData_round_trip_drops_witness :
    constructDefault JsValue.undef = Except.error "SyntaxError" ∧
    lookupJs (copyObj [("a", JsValue.undef)]) "a" = none ∧
    (copyArr [JsValue.func]).get? 0 = some JsValue.null :=
  ⟨copyData_round_trip_drops.1,
    copyData_round_trip_drops.2.2.1 [("a", JsValue.undef)] "a"
      (by simp) (Or.inl rfl),
    copyData_round_trip_drops.2.2.2 [JsValue.func] 0 (Or.inr rfl)⟩
